import Mathlib

/-!
Verification of the `dni_robocze` work-day calculator.

The Python module works with `datetime.date` values.  We embed a date as a
`year/month/day` triple of integers.  `datetime.date` arithmetic
(`+ timedelta(days=1)`, comparison, `.weekday()`, `.year`) is embedded by
`next`/`prev`, the lexicographic order, `weekday` (computed through the
standard proleptic-Gregorian day number `toRD`, with `toRD 1970-01-01 = 0`
falling on a Thursday), and the `year` field.  Loops of the source are
embedded as fuel-indexed recursions: `none` means the fuel ran out before
the loop finished, so a `some` result is exactly the result the Python
loop produces.
-/

set_option maxRecDepth 100000

deriving instance DecidableEq for Except

structure Date where
  year : Int
  month : Int
  day : Int
deriving DecidableEq

/-- Proleptic-Gregorian leap year test, as used by `datetime.date`. -/
def isLeap (y : Int) : Bool :=
  decide (y % 4 = 0 ∧ (¬ y % 100 = 0 ∨ y % 400 = 0))

/-- Number of days of month `m` in year `y`. -/
def daysInMonth (y m : Int) : Int :=
  if m = 2 then (if isLeap y then 29 else 28)
  else if m = 4 ∨ m = 6 ∨ m = 9 ∨ m = 11 then 30
  else 31

/-- A structurally valid calendar date (what a `datetime.date` can hold). -/
def Date.Valid (d : Date) : Prop :=
  1 ≤ d.month ∧ d.month ≤ 12 ∧ 1 ≤ d.day ∧ d.day ≤ daysInMonth d.year d.month

instance (d : Date) : Decidable d.Valid := by
  unfold Date.Valid; infer_instance

/-- The day after `d`; embeds `d + timedelta(days=1)`. -/
def Date.next (d : Date) : Date :=
  if d.day < daysInMonth d.year d.month then ⟨d.year, d.month, d.day + 1⟩
  else if d.month < 12 then ⟨d.year, d.month + 1, 1⟩
  else ⟨d.year + 1, 1, 1⟩

/-- The day before `d`; embeds `d - timedelta(days=1)`. -/
def Date.prev (d : Date) : Date :=
  if 1 < d.day then ⟨d.year, d.month, d.day - 1⟩
  else if 1 < d.month then ⟨d.year, d.month - 1, daysInMonth d.year (d.month - 1)⟩
  else ⟨d.year - 1, 12, 31⟩

/-- Number of days contributed by all years before 1 March of year `y+1`,
counted from year 0: the leap-day pattern of the proleptic Gregorian
calendar. -/
def gY (y : Int) : Int := 365 * y + y / 4 - y / 100 + y / 400

/-- Day-of-year offset of the first day of month `m`, in the
March-through-February reckoning (March = 0 … February = 337). -/
def monthOff (m : Int) : Int :=
  if m = 1 then 306 else if m = 2 then 337
  else if m = 3 then 0 else if m = 4 then 31 else if m = 5 then 61
  else if m = 6 then 92 else if m = 7 then 122 else if m = 8 then 153
  else if m = 9 then 184 else if m = 10 then 214 else if m = 11 then 245
  else 275

/-- Day number of a date: days since 1970-01-01 in the proleptic Gregorian
calendar (the classical civil-date formula, year shifted so it starts in
March). -/
def toRD (d : Date) : Int :=
  gY (if d.month ≤ 2 then d.year - 1 else d.year) + monthOff d.month + d.day - 1 - 719468

/-- Embeds `date.weekday()`: Monday = 0 … Sunday = 6.  1970-01-01
(`toRD = 0`) was a Thursday (= 3). -/
def weekday (d : Date) : Int :=
  (toRD d + 3) % 7

/-- Strict lexicographic order on dates, the order of `datetime.date`. -/
def dlt (a b : Date) : Bool :=
  decide (a.year < b.year ∨ (a.year = b.year ∧
    (a.month < b.month ∨ (a.month = b.month ∧ a.day < b.day))))

/-- Non-strict order on dates. -/
def dle (a b : Date) : Bool := ! dlt b a

/-- Iterated successor; embeds `d + timedelta(days=k)` for `k ≥ 0`. -/
def addDays (d : Date) (k : Nat) : Date := Date.next^[k] d

/-- The hardcoded Easter Sunday dates for 2020-2030 (`EASTER_DATES`);
`none` embeds `year not in EASTER_DATES`. -/
def EASTER_DATES (y : Int) : Option Date :=
  if y = 2020 then some ⟨2020, 4, 12⟩
  else if y = 2021 then some ⟨2021, 4, 4⟩
  else if y = 2022 then some ⟨2022, 4, 17⟩
  else if y = 2023 then some ⟨2023, 4, 9⟩
  else if y = 2024 then some ⟨2024, 3, 31⟩
  else if y = 2025 then some ⟨2025, 4, 20⟩
  else if y = 2026 then some ⟨2026, 4, 5⟩
  else if y = 2027 then some ⟨2027, 3, 28⟩
  else if y = 2028 then some ⟨2028, 4, 16⟩
  else if y = 2029 then some ⟨2029, 4, 1⟩
  else if y = 2030 then some ⟨2030, 4, 21⟩
  else none

/-- The supported year range (keys of `EASTER_DATES`). -/
def isSupported (y : Int) : Prop := 2020 ≤ y ∧ y ≤ 2030

instance (y : Int) : Decidable (isSupported y) := by
  unfold isSupported; infer_instance

/-- Embeds `get_holidays`: the Polish public holidays of a year, as the
list of members of the set the source builds (nine fixed dates, four
Easter-relative dates, and Christmas Eve from 2025 on).  `Except.error`
embeds the `ValueError` raised for an unsupported year. -/
def get_holidays (year : Int) : Except String (List Date) :=
  match EASTER_DATES year with
  | none => .error "unsupported year"
  | some easter =>
    .ok ([⟨year, 1, 1⟩, ⟨year, 1, 6⟩, ⟨year, 5, 1⟩, ⟨year, 5, 3⟩,
          ⟨year, 8, 15⟩, ⟨year, 11, 1⟩, ⟨year, 11, 11⟩,
          ⟨year, 12, 25⟩, ⟨year, 12, 26⟩,
          easter, addDays easter 1, addDays easter 49, addDays easter 60]
      ++ (if 2025 ≤ year then [⟨year, 12, 24⟩] else []))

/-- The fixed-date holiday names table (`HOLIDAY_NAMES`). -/
def HOLIDAY_NAMES : List (Int × Int × String) :=
  [(1, 1, "Nowy Rok"), (1, 6, "Trzech Kroli"), (5, 1, "Swieto Pracy"),
   (5, 3, "Swieto Konstytucji 3 Maja"), (8, 15, "Wniebowziecie NMP"),
   (11, 1, "Wszystkich Swietych"), (11, 11, "Swieto Niepodleglosci"),
   (12, 25, "Boze Narodzenie 1"), (12, 26, "Boze Narodzenie 2")]

/-- The `WIGILIA` entry (Christmas Eve, holiday from 2025 on). -/
def WIGILIA : Int × Int × String := (12, 24, "Wigilia Bozego Narodzenia")

/-- Stable insertion of a dated entry into a list sorted by date. -/
def insertByDate (x : Date × String) : List (Date × String) → List (Date × String)
  | [] => [x]
  | y :: ys => if dle y.1 x.1 then y :: insertByDate x ys else x :: y :: ys

/-- Stable sort by date; embeds `result.sort(key=lambda x: x[0])`. -/
def sortByDate : List (Date × String) → List (Date × String)
  | [] => []
  | x :: xs => insertByDate x (sortByDate xs)

/-- Embeds `get_holidays_with_names`: named holidays of a year, sorted
ascending by date. -/
def get_holidays_with_names (year : Int) : Except String (List (Date × String)) :=
  match EASTER_DATES year with
  | none => .error "unsupported year"
  | some easter =>
    let fixed := HOLIDAY_NAMES.map (fun e => ((⟨year, e.1, e.2.1⟩ : Date), e.2.2))
    let withWigilia :=
      fixed ++ (if 2025 ≤ year then [((⟨year, WIGILIA.1, WIGILIA.2.1⟩ : Date), WIGILIA.2.2)] else [])
    let all := withWigilia ++
      [(easter, "Wielkanoc"), (addDays easter 1, "Poniedzialek Wielkanocny"),
       (addDays easter 49, "Zielone Swiatki"), (addDays easter 60, "Boze Cialo")]
    .ok (sortByDate all)

/-- Embeds `is_workday`: weekends are never workdays (checked first, for
any year); otherwise the unsupported-year error of `get_holidays`
propagates, and a supported weekday is a workday iff it is not a
holiday. -/
def is_workday (date : Date) : Except String Bool :=
  if 5 ≤ weekday date then .ok false
  else
    match get_holidays date.year with
    | .error e => .error e
    | .ok holidays => .ok (decide (¬ date ∈ holidays))

/-- Observation helper: whether `d` is a member of the holiday set of
year `y` (`false` also when the year is unsupported). -/
def holidayMem (y : Int) (d : Date) : Bool :=
  match get_holidays y with
  | .error _ => false
  | .ok hs => decide (d ∈ hs)

/-- The ascending list of years `a, a+1, …, b`; embeds
`range(start.year, end.year + 1)`. -/
def yearsList (a b : Int) : List Int :=
  (List.range (b - a + 1).toNat).map (fun (i : Nat) => a + (i : Int))

/-- Union of the holiday sets of a list of years (as a concatenated list);
the first unsupported year raises. -/
def collectHolidays : List Int → Except String (List Date)
  | [] => .ok []
  | y :: ys =>
    match get_holidays y with
    | .error e => .error e
    | .ok h =>
      match collectHolidays ys with
      | .error e => .error e
      | .ok rest => .ok (h ++ rest)

/-- The per-day test of the counting loop:
`current.weekday() < 5 and current not in all_holidays`. -/
def countedDay (hs : List Date) (c : Date) : Bool :=
  decide (weekday c < 5) && decide (¬ c ∈ hs)

/-- The counting loop `while current <= end`, indexed by fuel.  With fuel
at least the length of the span the recursion stops at the `dle` test
exactly as the Python loop does. -/
def countLoop (hs : List Date) (e : Date) : Date → Nat → Nat
  | _, 0 => 0
  | c, k + 1 =>
    if dle c e then
      (if countedDay hs c then 1 else 0) + countLoop hs e c.next k
    else 0

/-- Embeds `count_workdays`: rejects `start > end`, builds the holiday
union over the touched years, then counts the workdays of the inclusive
range.  The fuel `(toRD e - toRD s + 1).toNat` is exactly the number of
days of the inclusive span, after which the loop guard is false anyway. -/
def count_workdays (s e : Date) : Except String Nat :=
  if dlt e s then .error "invalid range"
  else
    match collectHolidays (yearsList s.year e.year) with
    | .error m => .error m
    | .ok hs => .ok (countLoop hs e s (toRD e - toRD s + 1).toNat)

/-- One calendar-day step of the stepper: forward or backward. -/
def stepDay (forward : Bool) (c : Date) : Date :=
  if forward then c.next else c.prev

/-- The stepping loop of `add_workdays`, indexed by fuel: advance one
calendar day, stop with the re-raised range error if `is_workday` raises,
decrement `remaining` on workdays, and return the current day once
`remaining` hits zero.  `none` means the fuel ran out mid-loop. -/
def addLoop (forward : Bool) : Nat → Date → Nat → Option (Except String Date)
  | _, current, 0 => some (.ok current)
  | 0, _, _ + 1 => none
  | f + 1, current, r + 1 =>
    let c := stepDay forward current
    match is_workday c with
    | .error _ => some (.error "range exhausted")
    | .ok true => addLoop forward f c r
    | .ok false => addLoop forward f c (r + 1)

/-- Embeds `add_workdays`: `n = 0` returns the start unchanged, otherwise
the loop walks `|n|` workdays in the sign direction of `n`. -/
def add_workdays (fuel : Nat) (start : Date) (n : Int) : Option (Except String Date) :=
  if n = 0 then some (.ok start)
  else addLoop (decide (0 < n)) fuel start n.natAbs

/-- The list of candidate days examined by the stepping loop, in order
(instrumentation of `addLoop`, same recursion structure). -/
def addLoopVisits (forward : Bool) : Nat → Date → Nat → List Date
  | _, _, 0 => []
  | 0, _, _ + 1 => []
  | f + 1, current, r + 1 =>
    let c := stepDay forward current
    match is_workday c with
    | .error _ => [c]
    | .ok true => c :: addLoopVisits forward f c r
    | .ok false => c :: addLoopVisits forward f c (r + 1)

/-- The candidate days examined by `add_workdays`. -/
def addWorkdaysVisits (fuel : Nat) (start : Date) (n : Int) : List Date :=
  if n = 0 then []
  else addLoopVisits (decide (0 < n)) fuel start n.natAbs

example : weekday ⟨2024, 1, 1⟩ = 0 := by decide
example : weekday ⟨2031, 1, 1⟩ = 2 := by decide
example : weekday ⟨2019, 12, 31⟩ = 1 := by decide
example : weekday ⟨1999, 1, 2⟩ = 5 := by decide
example : is_workday ⟨1999, 1, 2⟩ = .ok false := by decide
example : is_workday ⟨2024, 1, 1⟩ = .ok false := by decide
example : is_workday ⟨2024, 1, 2⟩ = .ok true := by decide
example : add_workdays 10 ⟨2024, 1, 1⟩ 1 = some (.ok ⟨2024, 1, 2⟩) := by decide
example : add_workdays 10 ⟨2024, 12, 23⟩ 1 = some (.ok ⟨2024, 12, 24⟩) := by decide
example : add_workdays 10 ⟨2025, 12, 23⟩ 1 = some (.ok ⟨2025, 12, 29⟩) := by decide
example : count_workdays ⟨2024, 1, 1⟩ ⟨2024, 1, 7⟩ = .ok 4 := by decide

theorem isLeap_eq (y : Int) : isLeap y = true ↔ (y % 4 = 0 ∧ (¬ y % 100 = 0 ∨ y % 400 = 0)) := by
  simp [isLeap]

theorem gY_leap (y : Int) : gY y = gY (y - 1) + 365 + (if isLeap y then 1 else 0) := by
  by_cases hl : isLeap y = true
  · rw [if_pos hl]; rw [isLeap_eq] at hl; unfold gY; omega
  · rw [if_neg hl]; rw [isLeap_eq] at hl; unfold gY; omega

theorem gY_mono {u v : Int} (h : u ≤ v) : gY u ≤ gY v := by
  unfold gY; omega

theorem gY_step {u v : Int} (h : u < v) : gY u + 365 ≤ gY v := by
  unfold gY; omega

theorem monthOff_low {y m dd : Int} (h1 : 3 ≤ m) (h2 : m ≤ 12) (hd1 : 1 ≤ dd)
    (hd2 : dd ≤ daysInMonth y m) : 0 ≤ monthOff m + dd - 1 ∧ monthOff m + dd - 1 ≤ 305 := by
  interval_cases m <;> norm_num [monthOff, daysInMonth] at * <;> omega

theorem monthOff_high {y m dd : Int} (h1 : 1 ≤ m) (h2 : m ≤ 2) (hd1 : 1 ≤ dd)
    (hd2 : dd ≤ daysInMonth y m) :
    306 ≤ monthOff m + dd - 1 ∧ monthOff m + dd - 1 ≤ 364 + (if isLeap y then 1 else 0) := by
  interval_cases m
  · norm_num [monthOff, daysInMonth] at *
    split <;> omega
  · norm_num [monthOff, daysInMonth] at *
    by_cases hl : isLeap y = true
    · rw [if_pos hl] at hd2 ⊢; omega
    · rw [if_neg hl] at hd2 ⊢; omega

theorem monthOff_step (y ma mb : Int) (h1 : 3 ≤ ma) (h2 : ma < mb) (h3 : mb ≤ 12) :
    monthOff ma + daysInMonth y ma ≤ monthOff mb := by
  have hb : 4 ≤ mb := by omega
  have ha : ma ≤ 11 := by omega
  interval_cases ma <;> interval_cases mb <;> norm_num [monthOff, daysInMonth]

theorem toRD_lt {a b : Date} (ha : a.Valid) (hb : b.Valid) (h : dlt a b = true) :
    toRD a < toRD b := by
  obtain ⟨ya, ma, da⟩ := a
  obtain ⟨yb, mb, db⟩ := b
  simp only [dlt, decide_eq_true_eq] at h
  obtain ⟨ha1, ha2, ha3, ha4⟩ := ha
  obtain ⟨hb1, hb2, hb3, hb4⟩ := hb
  simp only at ha1 ha2 ha3 ha4 hb1 hb2 hb3 hb4
  simp only [toRD]
  rcases h with hy | ⟨hy, hm | ⟨hm, hd⟩⟩
  · by_cases hma : ma ≤ 2 <;> by_cases hmb : mb ≤ 2
    · rw [if_pos hma, if_pos hmb]
      have g1 := gY_leap ya
      have g2 := gY_mono (show ya ≤ yb - 1 by omega)
      have b1 := monthOff_high ha1 hma ha3 ha4
      have b2 := monthOff_high hb1 hmb hb3 hb4
      by_cases hl : isLeap ya = true
      · rw [if_pos hl] at g1 b1; omega
      · rw [if_neg hl] at g1 b1; omega
    · rw [if_pos hma, if_neg hmb]
      have g1 := gY_leap ya
      have g2 := gY_mono (show ya ≤ yb by omega)
      have b1 := monthOff_high ha1 hma ha3 ha4
      have b2 := monthOff_low (by omega) hb2 hb3 hb4
      by_cases hl : isLeap ya = true
      · rw [if_pos hl] at g1 b1; omega
      · rw [if_neg hl] at g1 b1; omega
    · rw [if_neg hma, if_pos hmb]
      have b1 := monthOff_low (by omega) ha2 ha3 ha4
      have b2 := monthOff_high hb1 hmb hb3 hb4
      rcases lt_or_eq_of_le (show ya ≤ yb - 1 by omega) with hlt | heq
      · have g2 := gY_step hlt; omega
      · rw [← heq]; omega
    · rw [if_neg hma, if_neg hmb]
      have b1 := monthOff_low (by omega) ha2 ha3 ha4
      have b2 := monthOff_low (by omega) hb2 hb3 hb4
      have g2 := gY_step (show ya < yb by omega)
      omega
  · subst hy
    by_cases hma : ma ≤ 2 <;> by_cases hmb : mb ≤ 2
    · rw [if_pos hma, if_pos hmb]
      have e1 : ma = 1 := by omega
      have e2 : mb = 2 := by omega
      subst e1; subst e2
      have d1 : daysInMonth ya 1 = 31 := by norm_num [daysInMonth]
      rw [d1] at ha4
      norm_num [monthOff]
      omega
    · rw [if_pos hma, if_neg hmb]
      have g1 := gY_leap ya
      have b1 := monthOff_high ha1 hma ha3 ha4
      have b2 := monthOff_low (by omega) hb2 hb3 hb4
      by_cases hl : isLeap ya = true
      · rw [if_pos hl] at g1 b1; omega
      · rw [if_neg hl] at g1 b1; omega
    · omega
    · rw [if_neg hma, if_neg hmb]
      have st := monthOff_step ya ma mb (by omega) hm hb2
      omega
  · subst hy; subst hm
    omega

theorem daysInMonth_pos (y m : Int) : 1 ≤ daysInMonth y m := by
  unfold daysInMonth
  split_ifs <;> omega

theorem valid_mk {y m dd : Int} :
    (Date.mk y m dd).Valid ↔ (1 ≤ m ∧ m ≤ 12 ∧ 1 ≤ dd ∧ dd ≤ daysInMonth y m) :=
  Iff.rfl

theorem valid_next {d : Date} (h : d.Valid) : d.next.Valid := by
  obtain ⟨y, m, dd⟩ := d
  obtain ⟨h1, h2, h3, h4⟩ := h
  simp only at h1 h2 h3 h4
  simp only [Date.next]
  by_cases hc : dd < daysInMonth y m
  · rw [if_pos hc, valid_mk]
    omega
  · rw [if_neg hc]
    by_cases hm12 : m < 12
    · rw [if_pos hm12, valid_mk]
      have := daysInMonth_pos y (m + 1)
      omega
    · rw [if_neg hm12, valid_mk]
      have := daysInMonth_pos (y + 1) 1
      omega

theorem valid_prev {d : Date} (h : d.Valid) : d.prev.Valid := by
  obtain ⟨y, m, dd⟩ := d
  obtain ⟨h1, h2, h3, h4⟩ := h
  simp only at h1 h2 h3 h4
  simp only [Date.prev]
  by_cases hc : 1 < dd
  · rw [if_pos hc, valid_mk]
    omega
  · rw [if_neg hc]
    by_cases hm1 : 1 < m
    · rw [if_pos hm1, valid_mk]
      have := daysInMonth_pos y (m - 1)
      omega
    · rw [if_neg hm1, valid_mk]
      have h31 : daysInMonth (y - 1) 12 = 31 := by norm_num [daysInMonth]
      omega

theorem toRD_mk (y m dd : Int) :
    toRD ⟨y, m, dd⟩ = gY (if m ≤ 2 then y - 1 else y) + monthOff m + dd - 1 - 719468 :=
  rfl

theorem toRD_next {d : Date} (h : d.Valid) : toRD d.next = toRD d + 1 := by
  obtain ⟨y, m, dd⟩ := d
  obtain ⟨h1, h2, h3, h4⟩ := h
  simp only at h1 h2 h3 h4
  simp only [Date.next]
  by_cases hc : dd < daysInMonth y m
  · rw [if_pos hc, toRD_mk, toRD_mk]
    omega
  · rw [if_neg hc]
    by_cases hm12 : m < 12
    · rw [if_pos hm12, toRD_mk, toRD_mk]
      have g1 := gY_leap y
      interval_cases m <;> norm_num [monthOff, daysInMonth] at * <;> try omega
      split_ifs at * <;> omega
    · rw [if_neg hm12, toRD_mk, toRD_mk]
      have hm : m = 12 := by omega
      subst hm
      norm_num [monthOff, daysInMonth] at *
      omega

theorem prev_next {d : Date} (h : d.Valid) : d.prev.next = d := by
  obtain ⟨y, m, dd⟩ := d
  obtain ⟨h1, h2, h3, h4⟩ := h
  simp only at h1 h2 h3 h4
  simp only [Date.prev]
  by_cases hc : 1 < dd
  · rw [if_pos hc]
    show Date.next ⟨y, m, dd - 1⟩ = ⟨y, m, dd⟩
    simp only [Date.next]
    rw [if_pos (show (⟨y, m, dd - 1⟩ : Date).day < daysInMonth y m from by show dd - 1 < _; omega)]
    show (⟨y, m, dd - 1 + 1⟩ : Date) = ⟨y, m, dd⟩
    simp only [Date.mk.injEq, true_and, and_true]
    omega
  · rw [if_neg hc]
    by_cases hm1 : 1 < m
    · rw [if_pos hm1]
      show Date.next ⟨y, m - 1, daysInMonth y (m - 1)⟩ = ⟨y, m, dd⟩
      simp only [Date.next]
      rw [if_neg (show ¬ (⟨y, m - 1, daysInMonth y (m - 1)⟩ : Date).day < daysInMonth y (m - 1)
            from by show ¬ daysInMonth y (m - 1) < daysInMonth y (m - 1); omega),
          if_pos (show (⟨y, m - 1, daysInMonth y (m - 1)⟩ : Date).month < 12
            from by show m - 1 < 12; omega)]
      show (⟨y, m - 1 + 1, 1⟩ : Date) = ⟨y, m, dd⟩
      simp only [Date.mk.injEq, true_and, and_true]
      omega
    · rw [if_neg hm1]
      show Date.next ⟨y - 1, 12, 31⟩ = ⟨y, m, dd⟩
      simp only [Date.next]
      have h31 : daysInMonth (y - 1) 12 = 31 := by norm_num [daysInMonth]
      rw [if_neg (show ¬ (⟨y - 1, 12, 31⟩ : Date).day < daysInMonth (y - 1) 12
            from by show ¬ (31 : Int) < daysInMonth (y - 1) 12; omega),
          if_neg (show ¬ (⟨y - 1, 12, 31⟩ : Date).month < 12 from by show ¬ (12 : Int) < 12; omega)]
      show (⟨y - 1 + 1, 1, 1⟩ : Date) = ⟨y, m, dd⟩
      simp only [Date.mk.injEq, true_and, and_true]
      omega

theorem toRD_prev {d : Date} (h : d.Valid) : toRD d.prev = toRD d - 1 := by
  have h2 := toRD_next (valid_prev h)
  rw [prev_next h] at h2
  omega

theorem dlt_total (a b : Date) : dlt a b = true ∨ a = b ∨ dlt b a = true := by
  obtain ⟨ya, ma, da⟩ := a
  obtain ⟨yb, mb, db⟩ := b
  simp only [dlt, decide_eq_true_eq, Date.mk.injEq]
  omega

theorem dlt_iff {a b : Date} (ha : a.Valid) (hb : b.Valid) :
    dlt a b = true ↔ toRD a < toRD b := by
  constructor
  · exact toRD_lt ha hb
  · intro h
    rcases dlt_total a b with h1 | h1 | h1
    · exact h1
    · subst h1; omega
    · have := toRD_lt hb ha h1; omega

theorem dle_iff {a b : Date} (ha : a.Valid) (hb : b.Valid) :
    dle a b = true ↔ toRD a ≤ toRD b := by
  unfold dle
  rw [Bool.not_eq_true']
  constructor
  · intro h
    by_contra hc
    have : dlt b a = true := (dlt_iff hb ha).mpr (by omega)
    simp [this] at h
  · intro h
    by_contra hc
    have : dlt b a = true := by
      cases hdec : dlt b a
      · simp [hdec] at hc
      · rfl
    have := (dlt_iff hb ha).mp this
    omega

theorem toRD_inj {a b : Date} (ha : a.Valid) (hb : b.Valid) (h : toRD a = toRD b) : a = b := by
  rcases dlt_total a b with h1 | h1 | h1
  · have := toRD_lt ha hb h1; omega
  · exact h1
  · have := toRD_lt hb ha h1; omega

theorem valid_iterate {d : Date} (h : d.Valid) (k : Nat) : (Date.next^[k] d).Valid := by
  induction k generalizing d with
  | zero => simpa using h
  | succ n ih =>
    rw [Function.iterate_succ_apply]
    exact ih (valid_next h)

theorem toRD_iterate {d : Date} (h : d.Valid) (k : Nat) :
    toRD (Date.next^[k] d) = toRD d + k := by
  induction k generalizing d with
  | zero => simp
  | succ n ih =>
    rw [Function.iterate_succ_apply, ih (valid_next h), toRD_next h]
    omega

theorem EASTER_DATES_eq_none {y : Int} (h : ¬ isSupported y) : EASTER_DATES y = none := by
  unfold isSupported at h
  unfold EASTER_DATES
  rw [if_neg (show y ≠ 2020 by omega), if_neg (show y ≠ 2021 by omega),
      if_neg (show y ≠ 2022 by omega), if_neg (show y ≠ 2023 by omega),
      if_neg (show y ≠ 2024 by omega), if_neg (show y ≠ 2025 by omega),
      if_neg (show y ≠ 2026 by omega), if_neg (show y ≠ 2027 by omega),
      if_neg (show y ≠ 2028 by omega), if_neg (show y ≠ 2029 by omega),
      if_neg (show y ≠ 2030 by omega)]

theorem isSupported_of_easter {y : Int} {e : Date} (h : EASTER_DATES y = some e) :
    isSupported y := by
  by_contra hc
  rw [EASTER_DATES_eq_none hc] at h
  exact Option.noConfusion h

theorem get_holidays_unsupported {y : Int} (h : ¬ isSupported y) :
    get_holidays y = .error "unsupported year" := by
  unfold get_holidays
  rw [EASTER_DATES_eq_none h]

/-- C2: a date falling on Saturday or Sunday is never a workday, with no
restriction on its year: the weekend test precedes the year check. -/
theorem C2_weekend_never_workday (d : Date) (h : weekday d = 5 ∨ weekday d = 6) :
    is_workday d = .ok false := by
  unfold is_workday
  rw [if_pos (show (5 : Int) ≤ weekday d by omega)]

/-- Witness for C2 at the Saturday 1999-01-02, a date outside the
supported years. -/
theorem C2_witness :
    (weekday ⟨1999, 1, 2⟩ = 5 ∨ weekday ⟨1999, 1, 2⟩ = 6) ∧
    is_workday ⟨1999, 1, 2⟩ = .ok false :=
  ⟨Or.inl (by decide), C2_weekend_never_workday ⟨1999, 1, 2⟩ (Or.inl (by decide))⟩

/-- C1 counterexample: 1999-01-02 lies outside the supported years yet
`is_workday` returns `ok false` (it is a Saturday), not an error — the
claim "fails regardless of the weekday" is false. -/
theorem C1_counterexample :
    ¬ isSupported (Date.mk 1999 1 2).year ∧ is_workday ⟨1999, 1, 2⟩ = .ok false := by
  decide

/-- C1 amended: for a date outside the supported years whose weekday is
Monday through Friday, `is_workday` fails with the unsupported-year
error. -/
theorem C1_unsupported_weekday_errors (d : Date) (h1 : ¬ isSupported d.year)
    (h2 : weekday d < 5) : is_workday d = .error "unsupported year" := by
  unfold is_workday
  rw [if_neg (by omega), get_holidays_unsupported h1]

/-- Witness for the amended C1 at the Monday 1999-01-04. -/
theorem C1_witness :
    (¬ isSupported (Date.mk 1999 1 4).year ∧ weekday ⟨1999, 1, 4⟩ < 5) ∧
    is_workday ⟨1999, 1, 4⟩ = .error "unsupported year" :=
  ⟨⟨by decide, by decide⟩, C1_unsupported_weekday_errors ⟨1999, 1, 4⟩ (by decide) (by decide)⟩

/-- C5: for every supported year the holiday set has exactly 13 members
before 2025 and 14 from 2025 on; the built list has no duplicate dates
(no fixed holiday coincides with an Easter-relative one). -/
theorem C5_holiday_count (y : Int) (h : isSupported y) :
    ∃ hs, get_holidays y = .ok hs ∧ hs.Nodup ∧
      hs.length = if y < 2025 then 13 else 14 := by
  obtain ⟨h1, h2⟩ := h
  interval_cases y <;> exact ⟨_, rfl, by decide, by decide⟩

/-- Witness for C5 at the year 2025. -/
theorem C5_witness :
    isSupported 2025 ∧ ∃ hs, get_holidays (2025 : Int) = .ok hs ∧ hs.Nodup ∧
      hs.length = if (2025 : Int) < 2025 then 13 else 14 :=
  ⟨by decide, C5_holiday_count 2025 (by decide)⟩

/-- C8: for every supported year the named-holiday list carries exactly
the dates of `get_holidays` (membership in both directions) and is sorted
ascending by date. -/
theorem C8_names_match_and_sorted (y : Int) (h : isSupported y) :
    ∃ l hs, get_holidays_with_names y = .ok l ∧ get_holidays y = .ok hs ∧
      (l.map Prod.fst).all (fun d => decide (d ∈ hs)) = true ∧
      hs.all (fun d => decide (d ∈ l.map Prod.fst)) = true ∧
      l.Pairwise (fun a b => dle a.1 b.1 = true) := by
  obtain ⟨h1, h2⟩ := h
  interval_cases y <;> exact ⟨_, _, rfl, rfl, by decide, by decide, by decide⟩

/-- Witness for C8 at the year 2026. -/
theorem C8_witness :
    isSupported 2026 ∧
    ∃ l hs, get_holidays_with_names (2026 : Int) = .ok l ∧ get_holidays (2026 : Int) = .ok hs ∧
      (l.map Prod.fst).all (fun d => decide (d ∈ hs)) = true ∧
      hs.all (fun d => decide (d ∈ l.map Prod.fst)) = true ∧
      l.Pairwise (fun a b => dle a.1 b.1 = true) :=
  ⟨by decide, C8_names_match_and_sorted 2026 (by decide)⟩

/-- C9: Christmas Eve is a holiday of 2025 but not of 2024 (and 2024 is a
supported year, so the `false` is a real non-membership). -/
theorem C9_wigilia_threshold :
    holidayMem 2025 ⟨2025, 12, 24⟩ = true ∧
    holidayMem 2024 ⟨2024, 12, 24⟩ = false ∧
    (get_holidays 2024).toOption.isSome = true := by
  decide

theorem addLoop_rzero (b : Bool) (f : Nat) (c : Date) :
    addLoop b f c 0 = some (.ok c) := by
  cases f <;> rfl

theorem addLoop_fuelout (b : Bool) (c : Date) (r : Nat) :
    addLoop b 0 c (r + 1) = none :=
  rfl

theorem addLoop_succ (b : Bool) (f : Nat) (c : Date) (r : Nat) :
    addLoop b (f + 1) c (r + 1) =
      match is_workday (stepDay b c) with
      | .error _ => some (.error "range exhausted")
      | .ok true => addLoop b f (stepDay b c) r
      | .ok false => addLoop b f (stepDay b c) (r + 1) :=
  rfl

theorem addLoop_succ_err (b : Bool) (f : Nat) (c : Date) (r : Nat) (e : String)
    (his : is_workday (stepDay b c) = .error e) :
    addLoop b (f + 1) c (r + 1) = some (.error "range exhausted") := by
  rw [addLoop_succ, his]

theorem addLoop_succ_true (b : Bool) (f : Nat) (c : Date) (r : Nat)
    (his : is_workday (stepDay b c) = .ok true) :
    addLoop b (f + 1) c (r + 1) = addLoop b f (stepDay b c) r := by
  rw [addLoop_succ, his]

theorem addLoop_succ_false (b : Bool) (f : Nat) (c : Date) (r : Nat)
    (his : is_workday (stepDay b c) = .ok false) :
    addLoop b (f + 1) c (r + 1) = addLoop b f (stepDay b c) (r + 1) := by
  rw [addLoop_succ, his]

theorem addLoop_ok_workday (b : Bool) (f : Nat) (c : Date) (r : Nat) (res : Date)
    (hr : 1 ≤ r) (h : addLoop b f c r = some (.ok res)) : is_workday res = .ok true := by
  induction f generalizing c r with
  | zero =>
    obtain ⟨r', rfl⟩ : ∃ r', r = r' + 1 := ⟨r - 1, by omega⟩
    rw [addLoop_fuelout] at h
    exact Option.noConfusion h
  | succ f ih =>
    obtain ⟨r', rfl⟩ : ∃ r', r = r' + 1 := ⟨r - 1, by omega⟩
    cases his : is_workday (stepDay b c) with
    | error e =>
      rw [addLoop_succ_err b f c r' e his] at h
      exact Except.noConfusion (Option.some.inj h)
    | ok bb =>
      cases bb with
      | true =>
        rw [addLoop_succ_true b f c r' his] at h
        cases r' with
        | zero =>
          rw [addLoop_rzero] at h
          rw [← Except.ok.inj (Option.some.inj h)]
          exact his
        | succ r'' => exact ih _ _ (by omega) h
      | false =>
        rw [addLoop_succ_false b f c r' his] at h
        exact ih _ _ (by omega) h

/-- C10: whenever `add_workdays` returns a date without error for a
non-zero step count, the returned date satisfies `is_workday`. -/
theorem C10_result_is_workday (fuel : Nat) (start : Date) (n : Int) (r : Date)
    (hn : n ≠ 0) (h : add_workdays fuel start n = some (.ok r)) :
    is_workday r = .ok true := by
  unfold add_workdays at h
  rw [if_neg hn] at h
  exact addLoop_ok_workday _ _ _ _ _ (by omega) h

/-- Witness for C10: one step from 2024-01-01 lands on 2024-01-02, a
workday. -/
theorem C10_witness :
    (1 : Int) ≠ 0 ∧ add_workdays 10 ⟨2024, 1, 1⟩ 1 = some (.ok ⟨2024, 1, 2⟩) ∧
    is_workday ⟨2024, 1, 2⟩ = .ok true :=
  ⟨by decide, by decide, C10_result_is_workday 10 ⟨2024, 1, 1⟩ 1 ⟨2024, 1, 2⟩ (by decide) (by decide)⟩

theorem stepDay_true (c : Date) : stepDay true c = c.next := rfl

theorem stepDay_false (c : Date) : stepDay false c = c.prev := rfl

theorem valid_stepDay {c : Date} (b : Bool) (h : c.Valid) : (stepDay b c).Valid := by
  cases b
  · rw [stepDay_false]; exact valid_prev h
  · rw [stepDay_true]; exact valid_next h

theorem next_year {d : Date} : d.next.year = d.year ∨ d.next = ⟨d.year + 1, 1, 1⟩ := by
  obtain ⟨y, m, dd⟩ := d
  simp only [Date.next]
  split_ifs
  · left; rfl
  · left; rfl
  · right; rfl

theorem prev_year {d : Date} : d.prev.year = d.year ∨ d.prev = ⟨d.year - 1, 12, 31⟩ := by
  obtain ⟨y, m, dd⟩ := d
  simp only [Date.prev]
  split_ifs
  · left; rfl
  · left; rfl
  · right; rfl

theorem step_year_supported {cur : Date} {b bb : Bool}
    (hs : isSupported cur.year) (his : is_workday (stepDay b cur) = .ok bb) :
    isSupported (stepDay b cur).year := by
  cases b
  · rw [stepDay_false] at his ⊢
    rcases prev_year with hsame | hroll
    · rw [hsame]; exact hs
    · by_cases hy : isSupported (cur.year - 1)
      · rw [hroll]; exact hy
      · exfalso
        have h2020 : cur.year = 2020 := by
          unfold isSupported at hs hy; omega
        rw [hroll, h2020] at his
        rw [show (2020 : Int) - 1 = 2019 by norm_num] at his
        rw [show is_workday ⟨2019, 12, 31⟩ = .error "unsupported year" from by decide] at his
        exact Except.noConfusion his
  · rw [stepDay_true] at his ⊢
    rcases next_year with hsame | hroll
    · rw [hsame]; exact hs
    · by_cases hy : isSupported (cur.year + 1)
      · rw [hroll]; exact hy
      · exfalso
        have h2030 : cur.year = 2030 := by
          unfold isSupported at hs hy; omega
        rw [hroll, h2030] at his
        rw [show (2030 : Int) + 1 = 2031 by norm_num] at his
        rw [show is_workday ⟨2031, 1, 1⟩ = .error "unsupported year" from by decide] at his
        exact Except.noConfusion his

theorem addLoopVisits_rzero (b : Bool) (f : Nat) (c : Date) :
    addLoopVisits b f c 0 = [] := by
  cases f <;> rfl

theorem addLoopVisits_fuelout (b : Bool) (c : Date) (r : Nat) :
    addLoopVisits b 0 c (r + 1) = [] :=
  rfl

theorem addLoopVisits_succ (b : Bool) (f : Nat) (c : Date) (r : Nat) :
    addLoopVisits b (f + 1) c (r + 1) =
      match is_workday (stepDay b c) with
      | .error _ => [stepDay b c]
      | .ok true => stepDay b c :: addLoopVisits b f (stepDay b c) r
      | .ok false => stepDay b c :: addLoopVisits b f (stepDay b c) (r + 1) :=
  rfl

theorem addLoopVisits_succ_err (b : Bool) (f : Nat) (c : Date) (r : Nat) (e : String)
    (his : is_workday (stepDay b c) = .error e) :
    addLoopVisits b (f + 1) c (r + 1) = [stepDay b c] := by
  rw [addLoopVisits_succ, his]

theorem addLoopVisits_succ_true (b : Bool) (f : Nat) (c : Date) (r : Nat)
    (his : is_workday (stepDay b c) = .ok true) :
    addLoopVisits b (f + 1) c (r + 1) = stepDay b c :: addLoopVisits b f (stepDay b c) r := by
  rw [addLoopVisits_succ, his]

theorem addLoopVisits_succ_false (b : Bool) (f : Nat) (c : Date) (r : Nat)
    (his : is_workday (stepDay b c) = .ok false) :
    addLoopVisits b (f + 1) c (r + 1) = stepDay b c :: addLoopVisits b f (stepDay b c) (r + 1) := by
  rw [addLoopVisits_succ, his]

theorem addLoop_out_of_range (b : Bool) (f : Nat) (cur : Date) (r : Nat)
    (hs : isSupported cur.year) :
    ∀ c ∈ addLoopVisits b f cur r, ¬ isSupported c.year →
      addLoop b f cur r = some (.error "range exhausted") ∧
      ∃ pre, addLoopVisits b f cur r = pre ++ [c] := by
  induction f generalizing cur r with
  | zero =>
    cases r with
    | zero => rw [addLoopVisits_rzero]; intro c hc; exact absurd hc (List.not_mem_nil c)
    | succ r' => rw [addLoopVisits_fuelout]; intro c hc; exact absurd hc (List.not_mem_nil c)
  | succ f ih =>
    cases r with
    | zero => rw [addLoopVisits_rzero]; intro c hc; exact absurd hc (List.not_mem_nil c)
    | succ r' =>
      cases his : is_workday (stepDay b cur) with
      | error e =>
        rw [addLoopVisits_succ_err b f cur r' e his]
        intro c hc hns
        rw [List.mem_singleton] at hc
        subst hc
        exact ⟨addLoop_succ_err b f cur r' e his, [], rfl⟩
      | ok bb =>
        have hsup : isSupported (stepDay b cur).year := step_year_supported hs his
        cases bb with
        | true =>
          rw [addLoopVisits_succ_true b f cur r' his]
          intro c hc hns
          rcases List.mem_cons.mp hc with rfl | htail
          · exact absurd hsup hns
          · obtain ⟨h1, pre, h2⟩ := ih (stepDay b cur) r' hsup c htail hns
            refine ⟨by rw [addLoop_succ_true b f cur r' his]; exact h1, stepDay b cur :: pre, ?_⟩
            rw [h2, List.cons_append]
        | false =>
          rw [addLoopVisits_succ_false b f cur r' his]
          intro c hc hns
          rcases List.mem_cons.mp hc with rfl | htail
          · exact absurd hsup hns
          · obtain ⟨h1, pre, h2⟩ := ih (stepDay b cur) (r' + 1) hsup c htail hns
            refine ⟨by rw [addLoop_succ_false b f cur r' his]; exact h1, stepDay b cur :: pre, ?_⟩
            rw [h2, List.cons_append]

/-- C4 counterexample: starting from the (out-of-range) Sunday 2031-01-05
with one backward step, the walk examines the out-of-range Saturday
2031-01-04, returns False for it, and continues past it to 2031-01-03 —
an out-of-range candidate does not stop the walk. -/
theorem C4_counterexample :
    (⟨2031, 1, 4⟩ : Date) ∈ addWorkdaysVisits 10 ⟨2031, 1, 5⟩ (-1) ∧
    ¬ isSupported (Date.mk 2031 1 4).year ∧
    (addWorkdaysVisits 10 ⟨2031, 1, 5⟩ (-1)).getLast? = some ⟨2031, 1, 3⟩ ∧
    (⟨2031, 1, 3⟩ : Date) ≠ ⟨2031, 1, 4⟩ := by
  decide

/-- C4 amended: when the start date's year is supported, every candidate
of the walk whose year is unsupported makes the whole operation fail with
the range-exhausted error, and is the last candidate the walk examines
(the walk never continues past it). -/
theorem C4_out_of_range_stops (fuel : Nat) (start : Date) (n : Int)
    (hs : isSupported start.year) (hn : n ≠ 0) :
    ∀ c ∈ addWorkdaysVisits fuel start n, ¬ isSupported c.year →
      add_workdays fuel start n = some (.error "range exhausted") ∧
      ∃ pre, addWorkdaysVisits fuel start n = pre ++ [c] := by
  unfold add_workdays addWorkdaysVisits
  rw [if_neg hn, if_neg hn]
  exact addLoop_out_of_range _ _ _ _ hs

/-- Witness for the amended C4: one forward step from 2030-12-31 examines
2031-01-01, which is out of range; the operation fails there and the walk
stops. -/
theorem C4_witness :
    isSupported (Date.mk 2030 12 31).year ∧ (1 : Int) ≠ 0 ∧
    (⟨2031, 1, 1⟩ : Date) ∈ addWorkdaysVisits 10 ⟨2030, 12, 31⟩ 1 ∧
    ¬ isSupported (Date.mk 2031 1 1).year ∧
    (add_workdays 10 ⟨2030, 12, 31⟩ 1 = some (.error "range exhausted") ∧
      ∃ pre, addWorkdaysVisits 10 ⟨2030, 12, 31⟩ 1 = pre ++ [⟨2031, 1, 1⟩]) :=
  ⟨by decide, by decide, by decide, by decide,
    C4_out_of_range_stops 10 ⟨2030, 12, 31⟩ 1 (by decide) (by decide)
      ⟨2031, 1, 1⟩ (by decide) (by decide)⟩

theorem mem_yearsList {a b y : Int} : y ∈ yearsList a b ↔ a ≤ y ∧ y ≤ b := by
  unfold yearsList
  constructor
  · intro hy
    obtain ⟨i, hi, hiy⟩ := List.mem_map.mp hy
    rw [List.mem_range] at hi
    subst hiy
    omega
  · rintro ⟨h1, h2⟩
    exact List.mem_map.mpr ⟨(y - a).toNat, List.mem_range.mpr (by omega), by omega⟩

theorem get_holidays_ok {y : Int} (h : isSupported y) : ∃ hs, get_holidays y = .ok hs := by
  obtain ⟨h1, h2⟩ := h
  interval_cases y <;> exact ⟨_, rfl⟩

theorem get_holidays_ok_supported {y : Int} {l : List Date} (h : get_holidays y = .ok l) :
    isSupported y := by
  cases heast : EASTER_DATES y with
  | none =>
    unfold get_holidays at h
    rw [heast] at h
    exact Except.noConfusion h
  | some e => exact isSupported_of_easter heast

theorem get_holidays_year {y : Int} {hs : List Date} (hy : isSupported y)
    (h : get_holidays y = .ok hs) : ∀ d ∈ hs, d.year = y := by
  obtain ⟨h1, h2⟩ := hy
  interval_cases y <;> (have hL := Except.ok.inj h.symm; subst hL; decide)

theorem collectHolidays_nil : collectHolidays [] = .ok [] := rfl

theorem collectHolidays_cons_ok {y : Int} {ys : List Int} {hy rest : List Date}
    (h1 : get_holidays y = .ok hy) (h2 : collectHolidays ys = .ok rest) :
    collectHolidays (y :: ys) = .ok (hy ++ rest) := by
  unfold collectHolidays
  rw [h1, h2]

theorem collectHolidays_cons_inv {y : Int} {ys : List Int} {hs : List Date}
    (h : collectHolidays (y :: ys) = .ok hs) :
    ∃ hy rest, get_holidays y = .ok hy ∧ collectHolidays ys = .ok rest ∧ hs = hy ++ rest := by
  unfold collectHolidays at h
  cases hg : get_holidays y with
  | error e => rw [hg] at h; exact Except.noConfusion h
  | ok hy =>
    rw [hg] at h
    cases hc : collectHolidays ys with
    | error e => rw [hc] at h; exact Except.noConfusion h
    | ok rest =>
      rw [hc] at h
      exact ⟨hy, rest, rfl, rfl, (Except.ok.inj h).symm⟩

theorem collectHolidays_ok (ys : List Int) (h : ∀ y ∈ ys, isSupported y) :
    ∃ hs, collectHolidays ys = .ok hs := by
  induction ys with
  | nil => exact ⟨[], rfl⟩
  | cons y ys ih =>
    obtain ⟨hy, hgy⟩ := get_holidays_ok (h y (List.mem_cons_self y ys))
    obtain ⟨rest, hrest⟩ := ih (fun z hz => h z (List.mem_cons_of_mem y hz))
    exact ⟨hy ++ rest, collectHolidays_cons_ok hgy hrest⟩

theorem collectHolidays_supported {ys : List Int} {hs : List Date}
    (h : collectHolidays ys = .ok hs) : ∀ y ∈ ys, isSupported y := by
  induction ys generalizing hs with
  | nil => intro y hy; exact absurd hy (List.not_mem_nil y)
  | cons z ys ih =>
    obtain ⟨hy, rest, hgz, hrest, rfl⟩ := collectHolidays_cons_inv h
    intro y hy
    rcases List.mem_cons.mp hy with rfl | htail
    · exact get_holidays_ok_supported hgz
    · exact ih hrest y htail

theorem collectHolidays_mem {ys : List Int} {hs : List Date}
    (h : collectHolidays ys = .ok hs) (d : Date) :
    d ∈ hs ↔ ∃ y ∈ ys, ∃ l, get_holidays y = .ok l ∧ d ∈ l := by
  induction ys generalizing hs with
  | nil =>
    rw [show hs = [] from Except.ok.inj h.symm]
    simp
  | cons z ys ih =>
    obtain ⟨hy, rest, hgz, hrest, rfl⟩ := collectHolidays_cons_inv h
    rw [List.mem_append, ih hrest]
    constructor
    · rintro (hmem | ⟨y, hyin, l, hl, hdl⟩)
      · exact ⟨z, List.mem_cons_self z ys, hy, hgz, hmem⟩
      · exact ⟨y, List.mem_cons_of_mem z hyin, l, hl, hdl⟩
    · rintro ⟨y, hyin, l, hl, hdl⟩
      rcases List.mem_cons.mp hyin with rfl | htail
      · left; rw [Except.ok.inj (hgz.symm.trans hl)]; exact hdl
      · right; exact ⟨y, htail, l, hl, hdl⟩

theorem dlt_year {a b : Date} (h : dlt a b = true) : a.year ≤ b.year := by
  unfold dlt at h
  rw [decide_eq_true_eq] at h
  omega

theorem dle_year {a b : Date} (h : dle a b = true) : a.year ≤ b.year := by
  unfold dle at h
  rw [Bool.not_eq_true'] at h
  unfold dlt at h
  rw [decide_eq_false_iff_not] at h
  omega

theorem collect_window_iff {a1 b1 a2 b2 : Int} {hs1 hs2 : List Date}
    (h1 : collectHolidays (yearsList a1 b1) = .ok hs1)
    (h2 : collectHolidays (yearsList a2 b2) = .ok hs2)
    (c : Date) (hc1 : a1 ≤ c.year ∧ c.year ≤ b1) (hc2 : a2 ≤ c.year ∧ c.year ≤ b2) :
    (c ∈ hs1 ↔ c ∈ hs2) := by
  rw [collectHolidays_mem h1 c, collectHolidays_mem h2 c]
  constructor
  · rintro ⟨y, hy, l, hl, hcl⟩
    have hcy := get_holidays_year (get_holidays_ok_supported hl) hl c hcl
    subst hcy
    exact ⟨c.year, mem_yearsList.mpr hc2, l, hl, hcl⟩
  · rintro ⟨y, hy, l, hl, hcl⟩
    have hcy := get_holidays_year (get_holidays_ok_supported hl) hl c hcl
    subst hcy
    exact ⟨c.year, mem_yearsList.mpr hc1, l, hl, hcl⟩

theorem countedDay_congr {hs1 hs2 : List Date} (c : Date) (h : c ∈ hs1 ↔ c ∈ hs2) :
    countedDay hs1 c = countedDay hs2 c := by
  unfold countedDay
  rw [decide_eq_decide.mpr (not_congr h)]

theorem countLoop_zero (hs : List Date) (e c : Date) : countLoop hs e c 0 = 0 := rfl

theorem countLoop_succ (hs : List Date) (e c : Date) (k : Nat) :
    countLoop hs e c (k + 1) =
      if dle c e then (if countedDay hs c then 1 else 0) + countLoop hs e c.next k
      else 0 :=
  rfl

theorem countLoop_succ_in {hs : List Date} {e c : Date} (k : Nat) (h : dle c e = true) :
    countLoop hs e c (k + 1) = (if countedDay hs c then 1 else 0) + countLoop hs e c.next k := by
  rw [countLoop_succ, if_pos h]

theorem countLoop_le (hs : List Date) (e : Date) (k : Nat) :
    ∀ c, countLoop hs e c k ≤ k := by
  induction k with
  | zero => intro c; rw [countLoop_zero]
  | succ k ih =>
    intro c
    rw [countLoop_succ]
    split
    · have := ih c.next
      split <;> omega
    · omega

theorem countLoop_congr (hs1 hs2 : List Date) (e : Date) (k : Nat) :
    ∀ c, (∀ j : Nat, j < k → countedDay hs1 (Date.next^[j] c) = countedDay hs2 (Date.next^[j] c)) →
      countLoop hs1 e c k = countLoop hs2 e c k := by
  induction k with
  | zero => intro c hcong; rfl
  | succ k ih =>
    intro c hcong
    rw [countLoop_succ, countLoop_succ]
    have h0 : countedDay hs1 c = countedDay hs2 c := by
      have := hcong 0 (by omega)
      simpa using this
    rw [h0, ih c.next (fun j hj => by
      have := hcong (j + 1) (by omega)
      rwa [Function.iterate_succ_apply] at this)]

theorem countLoop_split (hs : List Date) (mid e : Date) (hm : mid.Valid) (he : e.Valid)
    (hme : toRD mid ≤ toRD e) :
    ∀ (k1 k2 : Nat) (c : Date), c.Valid → toRD c + k1 = toRD mid + 1 →
      countLoop hs e c (k1 + k2) = countLoop hs mid c k1 + countLoop hs e (Date.next^[k1] c) k2 := by
  intro k1
  induction k1 with
  | zero =>
    intro k2 c hv hrd
    rw [countLoop_zero, Function.iterate_zero_apply, Nat.zero_add, Nat.zero_add]
  | succ k1 ih =>
    intro k2 c hv hrd
    have hcm : dle c mid = true := (dle_iff hv hm).mpr (by omega)
    have hce : dle c e = true := (dle_iff hv he).mpr (by omega)
    rw [show k1 + 1 + k2 = (k1 + k2) + 1 by omega]
    rw [countLoop_succ_in (k1 + k2) hce, countLoop_succ_in k1 hcm]
    rw [ih k2 c.next (valid_next hv) (by rw [toRD_next hv]; omega)]
    rw [Function.iterate_succ_apply]
    omega

theorem count_workdays_eq_ok {s e : Date} {hs : List Date} (hlt : dlt e s = false)
    (hch : collectHolidays (yearsList s.year e.year) = .ok hs) :
    count_workdays s e = .ok (countLoop hs e s (toRD e - toRD s + 1).toNat) := by
  unfold count_workdays
  rw [if_neg (by rw [hlt]; exact Bool.false_ne_true), hch]

theorem count_workdays_ok_inv {s e : Date} {cnt : Nat} (h : count_workdays s e = .ok cnt) :
    dlt e s = false ∧ ∃ hs, collectHolidays (yearsList s.year e.year) = .ok hs ∧
      cnt = countLoop hs e s (toRD e - toRD s + 1).toNat := by
  unfold count_workdays at h
  cases hlt : dlt e s with
  | true => rw [if_pos hlt] at h; exact Except.noConfusion h
  | false =>
    rw [if_neg (by rw [hlt]; exact Bool.false_ne_true)] at h
    cases hch : collectHolidays (yearsList s.year e.year) with
    | error m => rw [hch] at h; exact Except.noConfusion h
    | ok hs =>
      rw [hch] at h
      exact ⟨rfl, hs, rfl, (Except.ok.inj h).symm⟩

theorem countLoop_full_iff (hs : List Date) (e : Date) (he : e.Valid) :
    ∀ (k : Nat) (c : Date), c.Valid → toRD c + k ≤ toRD e + 1 →
      (countLoop hs e c k = k ↔ ∀ j : Nat, j < k → countedDay hs (Date.next^[j] c) = true) := by
  intro k
  induction k with
  | zero =>
    intro c hv hin
    constructor
    · intro _ j hj; exact absurd hj (Nat.not_lt_zero j)
    · intro _; rfl
  | succ k ih =>
    intro c hv hin
    have hce : dle c e = true := (dle_iff hv he).mpr (by omega)
    rw [countLoop_succ_in k hce]
    have hrec := ih c.next (valid_next hv) (by rw [toRD_next hv]; omega)
    have hle := countLoop_le hs e k c.next
    constructor
    · intro heq j hj
      have hcd : countedDay hs c = true := by
        by_contra hfalse
        rw [if_neg hfalse] at heq
        omega
      cases j with
      | zero => simpa using hcd
      | succ j' =>
        rw [Function.iterate_succ_apply]
        refine hrec.mp ?_ j' (by omega)
        rw [if_pos hcd] at heq
        omega
    · intro hall
      have hcd : countedDay hs c = true := by simpa using hall 0 (by omega)
      rw [if_pos hcd]
      have hnext : countLoop hs e c.next k = k := hrec.mpr (fun j hj => by
        have := hall (j + 1) (by omega)
        rwa [Function.iterate_succ_apply] at this)
      omega

theorem countLoop_zero_iff (hs : List Date) (e : Date) (he : e.Valid) :
    ∀ (k : Nat) (c : Date), c.Valid → toRD c + k ≤ toRD e + 1 →
      (countLoop hs e c k = 0 ↔ ∀ j : Nat, j < k → countedDay hs (Date.next^[j] c) = false) := by
  intro k
  induction k with
  | zero =>
    intro c hv hin
    constructor
    · intro _ j hj; exact absurd hj (Nat.not_lt_zero j)
    · intro _; rfl
  | succ k ih =>
    intro c hv hin
    have hce : dle c e = true := (dle_iff hv he).mpr (by omega)
    rw [countLoop_succ_in k hce]
    have hrec := ih c.next (valid_next hv) (by rw [toRD_next hv]; omega)
    constructor
    · intro heq j hj
      have hcd : countedDay hs c = false := by
        cases hcd : countedDay hs c
        · rfl
        · rw [if_pos hcd] at heq; omega
      cases j with
      | zero => simpa using hcd
      | succ j' =>
        rw [Function.iterate_succ_apply]
        refine hrec.mp ?_ j' (by omega)
        rw [if_neg (by rw [hcd]; exact Bool.false_ne_true)] at heq
        omega
    · intro hall
      have hcd : countedDay hs c = false := by simpa using hall 0 (by omega)
      rw [if_neg (by rw [hcd]; exact Bool.false_ne_true)]
      have hnext : countLoop hs e c.next k = 0 := hrec.mpr (fun j hj => by
        have := hall (j + 1) (by omega)
        rwa [Function.iterate_succ_apply] at this)
      omega

theorem mem_collect_own_year {a b : Int} {hs : List Date}
    (h : collectHolidays (yearsList a b) = .ok hs) (d : Date) (hd : a ≤ d.year ∧ d.year ≤ b)
    {l : List Date} (hl : get_holidays d.year = .ok l) : (d ∈ hs ↔ d ∈ l) := by
  rw [collectHolidays_mem h d]
  constructor
  · rintro ⟨y, hy, l2, hl2, hdl⟩
    have hdy := get_holidays_year (get_holidays_ok_supported hl2) hl2 d hdl
    subst hdy
    rw [Except.ok.inj (hl.symm.trans hl2)]
    exact hdl
  · intro hdl
    exact ⟨d.year, mem_yearsList.mpr hd, l, hl, hdl⟩

theorem countedDay_eq {hs : List Date} {d : Date} {l : List Date}
    (hiff : d ∈ hs ↔ d ∈ l) (hl : get_holidays d.year = .ok l) :
    countedDay hs d = (decide (weekday d < 5) && !(holidayMem d.year d)) := by
  unfold countedDay holidayMem
  rw [hl]
  simp only [decide_not]
  rw [decide_eq_decide.mpr hiff]

/-- C7: a successful workday count lies between 0 and the inclusive span
length; it is 0 only if every day of the range is a weekend day or a
holiday of its own year, and it equals the span length only if the range
contains no weekend day and no holiday. -/
theorem C7_count_bounds (s e : Date) (cnt : Nat) (hvs : s.Valid) (hve : e.Valid)
    (h : count_workdays s e = .ok cnt) :
    cnt ≤ (toRD e - toRD s + 1).toNat ∧
    (cnt = 0 → ∀ d : Date, d.Valid → dle s d = true → dle d e = true →
      5 ≤ weekday d ∨ holidayMem d.year d = true) ∧
    (cnt = (toRD e - toRD s + 1).toNat → ∀ d : Date, d.Valid → dle s d = true → dle d e = true →
      weekday d < 5 ∧ holidayMem d.year d = false) := by
  obtain ⟨hlt, hs, hch, rfl⟩ := count_workdays_ok_inv h
  have hse : toRD s ≤ toRD e := by
    by_contra hc
    rw [(dlt_iff hve hvs).mpr (by omega)] at hlt
    exact Bool.noConfusion hlt
  have Hspan : toRD s + (toRD e - toRD s + 1).toNat ≤ toRD e + 1 := by omega
  have hDit : ∀ d : Date, d.Valid → dle s d = true → dle d e = true →
      ∃ j : Nat, j < (toRD e - toRD s + 1).toNat ∧ Date.next^[j] s = d := by
    intro d hvd hsd hde
    have h1 : toRD s ≤ toRD d := (dle_iff hvs hvd).mp hsd
    have h2 : toRD d ≤ toRD e := (dle_iff hvd hve).mp hde
    refine ⟨(toRD d - toRD s).toNat, by omega, ?_⟩
    apply toRD_inj (valid_iterate hvs _) hvd
    rw [toRD_iterate hvs]
    omega
  have hCD : ∀ d : Date, dle s d = true → dle d e = true →
      ∃ l, get_holidays d.year = .ok l ∧
        countedDay hs d = (decide (weekday d < 5) && !(holidayMem d.year d)) := by
    intro d hsd hde
    have hyd : s.year ≤ d.year ∧ d.year ≤ e.year := ⟨dle_year hsd, dle_year hde⟩
    obtain ⟨l, hl⟩ := get_holidays_ok
      (collectHolidays_supported hch d.year (mem_yearsList.mpr hyd))
    exact ⟨l, hl, countedDay_eq (mem_collect_own_year hch d hyd hl) hl⟩
  refine ⟨countLoop_le hs e _ s, ?_, ?_⟩
  · intro h0 d hvd hsd hde
    obtain ⟨j, hj, hjd⟩ := hDit d hvd hsd hde
    have hcd := (countLoop_zero_iff hs e hve _ s hvs Hspan).mp h0 j hj
    rw [hjd] at hcd
    obtain ⟨l, hl, hcdeq⟩ := hCD d hsd hde
    rw [hcdeq] at hcd
    by_cases hw : weekday d < 5
    · right
      rw [decide_eq_true hw, Bool.true_and, Bool.not_eq_false'] at hcd
      exact hcd
    · left; omega
  · intro hfull d hvd hsd hde
    obtain ⟨j, hj, hjd⟩ := hDit d hvd hsd hde
    have hcd := (countLoop_full_iff hs e hve _ s hvs Hspan).mp hfull j hj
    rw [hjd] at hcd
    obtain ⟨l, hl, hcdeq⟩ := hCD d hsd hde
    rw [hcdeq] at hcd
    obtain ⟨hw, hh⟩ := Bool.and_eq_true_iff.mp hcd
    exact ⟨of_decide_eq_true hw, by simpa using hh⟩

/-- Witness for C7 on the concrete range 2024-01-01 … 2024-01-07, whose
count is 4. -/
theorem C7_witness :
    (Date.mk 2024 1 1).Valid ∧ (Date.mk 2024 1 7).Valid ∧
    count_workdays ⟨2024, 1, 1⟩ ⟨2024, 1, 7⟩ = .ok 4 ∧
    (4 ≤ (toRD ⟨2024, 1, 7⟩ - toRD ⟨2024, 1, 1⟩ + 1).toNat ∧
     (4 = 0 → ∀ d : Date, d.Valid → dle ⟨2024, 1, 1⟩ d = true → dle d ⟨2024, 1, 7⟩ = true →
       5 ≤ weekday d ∨ holidayMem d.year d = true) ∧
     (4 = (toRD ⟨2024, 1, 7⟩ - toRD ⟨2024, 1, 1⟩ + 1).toNat →
       ∀ d : Date, d.Valid → dle ⟨2024, 1, 1⟩ d = true → dle d ⟨2024, 1, 7⟩ = true →
       weekday d < 5 ∧ holidayMem d.year d = false)) :=
  ⟨by decide, by decide, by decide,
    C7_count_bounds ⟨2024, 1, 1⟩ ⟨2024, 1, 7⟩ 4 (by decide) (by decide) (by decide)⟩

/-- C6: the workday count is additive over a partition of the inclusive
range at any interior point: counting over the whole range equals the sum
of the counts over the two halves split after `mid`, whenever every year
of the span is supported. -/
theorem C6_count_additive (s mid e : Date) (hvs : s.Valid) (hvm : mid.Valid) (hve : e.Valid)
    (h1 : dle s mid = true) (h2 : dlt mid e = true)
    (hsup : ∀ y : Int, s.year ≤ y → y ≤ e.year → isSupported y) :
    ∃ a b cnt, count_workdays s mid = .ok a ∧ count_workdays mid.next e = .ok b ∧
      count_workdays s e = .ok cnt ∧ cnt = a + b := by
  have Zsm : toRD s ≤ toRD mid := (dle_iff hvs hvm).mp h1
  have Zme : toRD mid < toRD e := (dlt_iff hvm hve).mp h2
  have hvmn : mid.next.Valid := valid_next hvm
  have Zmn : toRD mid.next = toRD mid + 1 := toRD_next hvm
  have hysm : s.year ≤ mid.year := dle_year h1
  have hyme : mid.year ≤ e.year := dlt_year h2
  have hymn1 : mid.year ≤ mid.next.year := dle_year ((dle_iff hvm hvmn).mpr (by omega))
  have hymn2 : mid.next.year ≤ e.year := dle_year ((dle_iff hvmn hve).mpr (by omega))
  obtain ⟨hsL, hchL⟩ := collectHolidays_ok (yearsList s.year mid.year)
    (fun y hy => hsup y (mem_yearsList.mp hy).1 (le_trans (mem_yearsList.mp hy).2 hyme))
  obtain ⟨hsR, hchR⟩ := collectHolidays_ok (yearsList mid.next.year e.year)
    (fun y hy => hsup y (le_trans (le_trans hysm hymn1) (mem_yearsList.mp hy).1)
      (mem_yearsList.mp hy).2)
  obtain ⟨hsF, hchF⟩ := collectHolidays_ok (yearsList s.year e.year)
    (fun y hy => hsup y (mem_yearsList.mp hy).1 (mem_yearsList.mp hy).2)
  have hltM : dlt mid s = false := by
    cases hq : dlt mid s with
    | false => rfl
    | true => exact absurd ((dlt_iff hvm hvs).mp hq) (by omega)
  have hltR : dlt e mid.next = false := by
    cases hq : dlt e mid.next with
    | false => rfl
    | true => exact absurd ((dlt_iff hve hvmn).mp hq) (by omega)
  have hltF : dlt e s = false := by
    cases hq : dlt e s with
    | false => rfl
    | true => exact absurd ((dlt_iff hve hvs).mp hq) (by omega)
  have hA := count_workdays_eq_ok hltM hchL
  have hB := count_workdays_eq_ok hltR hchR
  have hC := count_workdays_eq_ok hltF hchF
  refine ⟨_, _, _, hA, hB, hC, ?_⟩
  set k1 := (toRD mid - toRD s + 1).toNat with hk1
  set k2 := (toRD e - toRD mid.next + 1).toNat with hk2
  have hkT : (toRD e - toRD s + 1).toNat = k1 + k2 := by omega
  rw [hkT]
  rw [countLoop_split hsF mid e hvm hve (by omega) k1 k2 s hvs (by omega)]
  have hit : Date.next^[k1] s = mid.next :=
    toRD_inj (valid_iterate hvs k1) hvmn (by rw [toRD_iterate hvs]; omega)
  rw [hit]
  have hcongL : countLoop hsF mid s k1 = countLoop hsL mid s k1 := by
    apply countLoop_congr
    intro j hj
    have hvc : (Date.next^[j] s).Valid := valid_iterate hvs j
    have hZc : toRD (Date.next^[j] s) = toRD s + j := toRD_iterate hvs j
    have hscy : s.year ≤ (Date.next^[j] s).year :=
      dle_year ((dle_iff hvs hvc).mpr (by omega))
    have hcmy : (Date.next^[j] s).year ≤ mid.year :=
      dle_year ((dle_iff hvc hvm).mpr (by omega))
    exact countedDay_congr (Date.next^[j] s)
      (collect_window_iff hchF hchL (Date.next^[j] s)
        ⟨hscy, le_trans hcmy hyme⟩ ⟨hscy, hcmy⟩)
  have hcongR : countLoop hsF e mid.next k2 = countLoop hsR e mid.next k2 := by
    apply countLoop_congr
    intro j hj
    have hvc : (Date.next^[j] mid.next).Valid := valid_iterate hvmn j
    have hZc : toRD (Date.next^[j] mid.next) = toRD mid.next + j := toRD_iterate hvmn j
    have hmcy : mid.next.year ≤ (Date.next^[j] mid.next).year :=
      dle_year ((dle_iff hvmn hvc).mpr (by omega))
    have hcey : (Date.next^[j] mid.next).year ≤ e.year :=
      dle_year ((dle_iff hvc hve).mpr (by omega))
    exact countedDay_congr (Date.next^[j] mid.next)
      (collect_window_iff hchF hchR (Date.next^[j] mid.next)
        ⟨le_trans (le_trans hysm hymn1) hmcy, hcey⟩ ⟨hmcy, hcey⟩)
  rw [hcongL, hcongR]

/-- Witness for C6 on the concrete partition 2024-01-01 … 2024-01-03 and
2024-01-04 … 2024-01-07 (counts 2 + 2 = 4). -/
theorem C6_witness :
    dle ⟨2024, 1, 1⟩ ⟨2024, 1, 3⟩ = true ∧ dlt ⟨2024, 1, 3⟩ ⟨2024, 1, 7⟩ = true ∧
    (∃ a b cnt, count_workdays ⟨2024, 1, 1⟩ ⟨2024, 1, 3⟩ = .ok a ∧
      count_workdays (Date.next ⟨2024, 1, 3⟩) ⟨2024, 1, 7⟩ = .ok b ∧
      count_workdays ⟨2024, 1, 1⟩ ⟨2024, 1, 7⟩ = .ok cnt ∧ cnt = a + b) :=
  ⟨by decide, by decide,
    C6_count_additive ⟨2024, 1, 1⟩ ⟨2024, 1, 3⟩ ⟨2024, 1, 7⟩
      (by decide) (by decide) (by decide) (by decide) (by decide)
      (fun y hy1 hy2 =>
        ⟨le_trans (by norm_num) hy1, le_trans hy2 (by norm_num)⟩)⟩

theorem addLoop_one_fuelout (b : Bool) (c : Date) : addLoop b 0 c 1 = none :=
  addLoop_fuelout b c 0

theorem addLoop_one_err (b : Bool) (f : Nat) (c : Date) (e : String)
    (his : is_workday (stepDay b c) = .error e) :
    addLoop b (f + 1) c 1 = some (.error "range exhausted") :=
  addLoop_succ_err b f c 0 e his

theorem addLoop_one_true (b : Bool) (f : Nat) (c : Date)
    (his : is_workday (stepDay b c) = .ok true) :
    addLoop b (f + 1) c 1 = some (.ok (stepDay b c)) := by
  have h2 := addLoop_succ_true b f c 0 his
  rw [addLoop_rzero] at h2
  exact h2

theorem addLoop_one_false (b : Bool) (f : Nat) (c : Date)
    (his : is_workday (stepDay b c) = .ok false) :
    addLoop b (f + 1) c 1 = addLoop b f (stepDay b c) 1 :=
  addLoop_succ_false b f c 0 his

theorem addLoop_split (b : Bool) :
    ∀ (f : Nat) (c : Date) (r1 r2 : Nat) (res : Date),
      addLoop b f c (r1 + r2) = some (.ok res) →
      ∃ g1 g2 m, addLoop b g1 c r1 = some (.ok m) ∧ addLoop b g2 m r2 = some (.ok res) := by
  intro f
  induction f with
  | zero =>
    intro c r1 r2 res h
    cases r1 with
    | zero => exact ⟨0, 0, c, addLoop_rzero b 0 c, by simpa using h⟩
    | succ r1' =>
      rw [show r1' + 1 + r2 = (r1' + r2) + 1 by omega, addLoop_fuelout] at h
      exact Option.noConfusion h
  | succ f ih =>
    intro c r1 r2 res h
    cases r1 with
    | zero => exact ⟨0, f + 1, c, addLoop_rzero b 0 c, by simpa using h⟩
    | succ r1' =>
      rw [show r1' + 1 + r2 = (r1' + r2) + 1 by omega] at h
      cases his : is_workday (stepDay b c) with
      | error e =>
        rw [addLoop_succ_err b f c (r1' + r2) e his] at h
        exact Except.noConfusion (Option.some.inj h)
      | ok bb =>
        cases bb with
        | true =>
          rw [addLoop_succ_true b f c (r1' + r2) his] at h
          obtain ⟨g1, g2, m, ha, hb⟩ := ih (stepDay b c) r1' r2 res h
          refine ⟨g1 + 1, g2, m, ?_, hb⟩
          rw [addLoop_succ_true b g1 c r1' his]
          exact ha
        | false =>
          rw [addLoop_succ_false b f c (r1' + r2) his,
              show r1' + r2 + 1 = r1' + 1 + r2 by omega] at h
          obtain ⟨g1, g2, m, ha, hb⟩ := ih (stepDay b c) (r1' + 1) r2 res h
          refine ⟨g1 + 1, g2, m, ?_, hb⟩
          rw [addLoop_succ_false b g1 c r1' his]
          exact ha

theorem addLoop_one_fwd :
    ∀ (f : Nat) (c m : Date), c.Valid → addLoop true f c 1 = some (.ok m) →
      m.Valid ∧ dlt c m = true ∧ is_workday m = .ok true ∧
        ∀ j : Date, j.Valid → dlt c j = true → dlt j m = true → is_workday j = .ok false := by
  intro f
  induction f with
  | zero =>
    intro c m hv h
    rw [addLoop_one_fuelout] at h
    exact Option.noConfusion h
  | succ f ih =>
    intro c m hv h
    cases his : is_workday (stepDay true c) with
    | error e =>
      rw [addLoop_one_err true f c e his] at h
      exact Except.noConfusion (Option.some.inj h)
    | ok bb =>
      cases bb with
      | true =>
        rw [addLoop_one_true true f c his] at h
        have hm : stepDay true c = m := Except.ok.inj (Option.some.inj h)
        subst hm
        rw [stepDay_true] at his ⊢
        refine ⟨valid_next hv,
          (dlt_iff hv (valid_next hv)).mpr (by rw [toRD_next hv]; omega), his, ?_⟩
        intro j hvj hcj hjm
        exfalso
        have t1 := (dlt_iff hv hvj).mp hcj
        have t2 := (dlt_iff hvj (valid_next hv)).mp hjm
        rw [toRD_next hv] at t2
        omega
      | false =>
        rw [addLoop_one_false true f c his] at h
        rw [stepDay_true] at his h
        obtain ⟨hvm, hltm, hwm, hint⟩ := ih c.next m (valid_next hv) h
        have hZn := toRD_next hv
        have hZnm := (dlt_iff (valid_next hv) hvm).mp hltm
        refine ⟨hvm, (dlt_iff hv hvm).mpr (by omega), hwm, ?_⟩
        intro j hvj hcj hjm
        have t1 := (dlt_iff hv hvj).mp hcj
        have t2 := (dlt_iff hvj hvm).mp hjm
        by_cases hjn : j = c.next
        · rw [hjn]; exact his
        · have hne : toRD j ≠ toRD c.next := fun hq => hjn (toRD_inj hvj (valid_next hv) hq)
          exact hint j hvj ((dlt_iff (valid_next hv) hvj).mpr (by omega)) hjm

theorem addLoop_one_bwd :
    ∀ (f : Nat) (c m : Date), c.Valid → addLoop false f c 1 = some (.ok m) →
      m.Valid ∧ dlt m c = true ∧ is_workday m = .ok true ∧
        ∀ j : Date, j.Valid → dlt m j = true → dlt j c = true → is_workday j = .ok false := by
  intro f
  induction f with
  | zero =>
    intro c m hv h
    rw [addLoop_one_fuelout] at h
    exact Option.noConfusion h
  | succ f ih =>
    intro c m hv h
    cases his : is_workday (stepDay false c) with
    | error e =>
      rw [addLoop_one_err false f c e his] at h
      exact Except.noConfusion (Option.some.inj h)
    | ok bb =>
      cases bb with
      | true =>
        rw [addLoop_one_true false f c his] at h
        have hm : stepDay false c = m := Except.ok.inj (Option.some.inj h)
        subst hm
        rw [stepDay_false] at his ⊢
        refine ⟨valid_prev hv,
          (dlt_iff (valid_prev hv) hv).mpr (by rw [toRD_prev hv]; omega), his, ?_⟩
        intro j hvj hcj hjm
        exfalso
        have t1 := (dlt_iff (valid_prev hv) hvj).mp hcj
        have t2 := (dlt_iff hvj hv).mp hjm
        rw [toRD_prev hv] at t1
        omega
      | false =>
        rw [addLoop_one_false false f c his] at h
        rw [stepDay_false] at his h
        obtain ⟨hvm, hltm, hwm, hint⟩ := ih c.prev m (valid_prev hv) h
        have hZp := toRD_prev hv
        have hZmp := (dlt_iff hvm (valid_prev hv)).mp hltm
        refine ⟨hvm, (dlt_iff hvm hv).mpr (by omega), hwm, ?_⟩
        intro j hvj hmj hjc
        have t1 := (dlt_iff hvm hvj).mp hmj
        have t2 := (dlt_iff hvj hv).mp hjc
        by_cases hjp : j = c.prev
        · rw [hjp]; exact his
        · have hne : toRD j ≠ toRD c.prev := fun hq => hjp (toRD_inj hvj (valid_prev hv) hq)
          exact hint j hvj hmj ((dlt_iff hvj (valid_prev hv)).mpr (by omega))

theorem addLoop_back_hits :
    ∀ (g : Nat) (m c res : Date), c.Valid → m.Valid → dlt c m = true →
      is_workday c = .ok true →
      (∀ j : Date, j.Valid → dlt c j = true → dlt j m = true → is_workday j = .ok false) →
      addLoop false g m 1 = some (.ok res) → res = c := by
  intro g
  induction g with
  | zero =>
    intro m c res hvc hvm hcm hwc hint h
    rw [addLoop_one_fuelout] at h
    exact Option.noConfusion h
  | succ g ih =>
    intro m c res hvc hvm hcm hwc hint h
    have hvp : m.prev.Valid := valid_prev hvm
    have hZp : toRD m.prev = toRD m - 1 := toRD_prev hvm
    have hZcm : toRD c < toRD m := (dlt_iff hvc hvm).mp hcm
    by_cases heq : c = m.prev
    · have his : is_workday (stepDay false m) = .ok true := by
        rw [stepDay_false, ← heq]; exact hwc
      rw [addLoop_one_true false g m his] at h
      have hres : stepDay false m = res := Except.ok.inj (Option.some.inj h)
      rw [← hres, stepDay_false, ← heq]
    · have hne : toRD c ≠ toRD m.prev := fun hq => heq (toRD_inj hvc hvp hq)
      have hcp : dlt c m.prev = true := (dlt_iff hvc hvp).mpr (by omega)
      have hpm : dlt m.prev m = true := (dlt_iff hvp hvm).mpr (by omega)
      have his : is_workday (stepDay false m) = .ok false := by
        rw [stepDay_false]; exact hint m.prev hvp hcp hpm
      rw [addLoop_one_false false g m his, stepDay_false] at h
      refine ih m.prev c res hvc hvp hcp hwc ?_ h
      intro j hvj hcj hjp
      have hjZ := (dlt_iff hvj hvp).mp hjp
      exact hint j hvj hcj ((dlt_iff hvj hvm).mpr (by omega))

theorem addLoop_fwd_hits :
    ∀ (g : Nat) (m c res : Date), c.Valid → m.Valid → dlt m c = true →
      is_workday c = .ok true →
      (∀ j : Date, j.Valid → dlt m j = true → dlt j c = true → is_workday j = .ok false) →
      addLoop true g m 1 = some (.ok res) → res = c := by
  intro g
  induction g with
  | zero =>
    intro m c res hvc hvm hmc hwc hint h
    rw [addLoop_one_fuelout] at h
    exact Option.noConfusion h
  | succ g ih =>
    intro m c res hvc hvm hmc hwc hint h
    have hvn : m.next.Valid := valid_next hvm
    have hZn : toRD m.next = toRD m + 1 := toRD_next hvm
    have hZmc : toRD m < toRD c := (dlt_iff hvm hvc).mp hmc
    by_cases heq : c = m.next
    · have his : is_workday (stepDay true m) = .ok true := by
        rw [stepDay_true, ← heq]; exact hwc
      rw [addLoop_one_true true g m his] at h
      have hres : stepDay true m = res := Except.ok.inj (Option.some.inj h)
      rw [← hres, stepDay_true, ← heq]
    · have hne : toRD c ≠ toRD m.next := fun hq => heq (toRD_inj hvc hvn hq)
      have hnc : dlt m.next c = true := (dlt_iff hvn hvc).mpr (by omega)
      have hmn : dlt m m.next = true := (dlt_iff hvm hvn).mpr (by omega)
      have his : is_workday (stepDay true m) = .ok false := by
        rw [stepDay_true]; exact hint m.next hvn hmn hnc
      rw [addLoop_one_false true g m his, stepDay_true] at h
      refine ih m.next c res hvc hvn hnc hwc ?_ h
      intro j hvj hnj hjc
      have hjZ := (dlt_iff hvn hvj).mp hnj
      exact hint j hvj ((dlt_iff hvm hvj).mpr (by omega)) hjc

theorem addLoop_roundtrip_fwd :
    ∀ (k : Nat) (c : Date) (f g : Nat) (r res : Date), c.Valid →
      is_workday c = .ok true →
      addLoop true f c k = some (.ok r) →
      addLoop false g r k = some (.ok res) → res = c := by
  intro k
  induction k with
  | zero =>
    intro c f g r res hv hw hf hb
    rw [addLoop_rzero] at hf hb
    rw [← Except.ok.inj (Option.some.inj hb), ← Except.ok.inj (Option.some.inj hf)]
  | succ k ih =>
    intro c f g r res hv hw hf hb
    rw [show k + 1 = 1 + k by omega] at hf
    obtain ⟨g1, g2, m, h1, h2⟩ := addLoop_split true f c 1 k r hf
    obtain ⟨hvm, hcm, hwm, hint⟩ := addLoop_one_fwd g1 c m hv h1
    obtain ⟨g3, g4, t, h3, h4⟩ := addLoop_split false g r k 1 res hb
    have ht : t = m := ih m g2 g3 r t hvm hwm h2 h3
    subst ht
    exact addLoop_back_hits g4 t c res hv hvm hcm hw hint h4

theorem addLoop_roundtrip_bwd :
    ∀ (k : Nat) (c : Date) (f g : Nat) (r res : Date), c.Valid →
      is_workday c = .ok true →
      addLoop false f c k = some (.ok r) →
      addLoop true g r k = some (.ok res) → res = c := by
  intro k
  induction k with
  | zero =>
    intro c f g r res hv hw hf hb
    rw [addLoop_rzero] at hf hb
    rw [← Except.ok.inj (Option.some.inj hb), ← Except.ok.inj (Option.some.inj hf)]
  | succ k ih =>
    intro c f g r res hv hw hf hb
    rw [show k + 1 = 1 + k by omega] at hf
    obtain ⟨g1, g2, m, h1, h2⟩ := addLoop_split false f c 1 k r hf
    obtain ⟨hvm, hmc, hwm, hint⟩ := addLoop_one_bwd g1 c m hv h1
    obtain ⟨g3, g4, t, h3, h4⟩ := addLoop_split true g r k 1 res hb
    have ht : t = m := ih m g2 g3 r t hvm hwm h2 h3
    subst ht
    exact addLoop_fwd_hits g4 t c res hv hvm hmc hw hint h4

/-- C3 counterexample: from the Saturday 2024-01-06, one workday forward
reaches Monday 2024-01-08, but one workday back from there reaches Friday
2024-01-05, not the Saturday — both calls stay inside the supported range
yet the round trip does not return to the origin. -/
theorem C3_counterexample :
    add_workdays 10 ⟨2024, 1, 6⟩ 1 = some (.ok ⟨2024, 1, 8⟩) ∧
    add_workdays 10 ⟨2024, 1, 8⟩ (-1) = some (.ok ⟨2024, 1, 5⟩) ∧
    (⟨2024, 1, 5⟩ : Date) ≠ ⟨2024, 1, 6⟩ := by
  decide

/-- C3 amended: when the start date is itself a workday, stepping n
workdays and then -n workdays returns to the start, whenever both calls
return without error. -/
theorem C3_roundtrip (f1 f2 : Nat) (d : Date) (n : Int) (r1 r2 : Date)
    (hv : d.Valid) (hw : is_workday d = .ok true) (hn : n ≠ 0)
    (h1 : add_workdays f1 d n = some (.ok r1))
    (h2 : add_workdays f2 r1 (-n) = some (.ok r2)) : r2 = d := by
  unfold add_workdays at h1 h2
  rw [if_neg hn] at h1
  rw [if_neg (show ¬ -n = 0 by omega)] at h2
  rw [show (-n).natAbs = n.natAbs by omega] at h2
  by_cases hpos : 0 < n
  · rw [decide_eq_true hpos] at h1
    rw [decide_eq_false (show ¬ (0 : Int) < -n by omega)] at h2
    exact addLoop_roundtrip_fwd n.natAbs d f1 f2 r1 r2 hv hw h1 h2
  · rw [decide_eq_false hpos] at h1
    rw [decide_eq_true (show (0 : Int) < -n by omega)] at h2
    exact addLoop_roundtrip_bwd n.natAbs d f1 f2 r1 r2 hv hw h1 h2

/-- Witness for the amended C3: the Tuesday workday 2024-01-02, one step
forward to 2024-01-03 and one step back again. -/
theorem C3_witness :
    (Date.mk 2024 1 2).Valid ∧ is_workday ⟨2024, 1, 2⟩ = .ok true ∧ (1 : Int) ≠ 0 ∧
    add_workdays 20 ⟨2024, 1, 2⟩ 1 = some (.ok ⟨2024, 1, 3⟩) ∧
    add_workdays 20 ⟨2024, 1, 3⟩ (-1) = some (.ok ⟨2024, 1, 2⟩) ∧
    (⟨2024, 1, 2⟩ : Date) = ⟨2024, 1, 2⟩ :=
  ⟨by decide, by decide, by decide, by decide, by decide,
    C3_roundtrip 20 20 ⟨2024, 1, 2⟩ 1 ⟨2024, 1, 3⟩ ⟨2024, 1, 2⟩
      (by decide) (by decide) (by decide) (by decide) (by decide)⟩
